import Mathlib

/- Shallow embedding of src/nbs/pricing.py: the two public functions
   price_american_call_pde and implied_volatility_american_call_pde.

   The numeric values of the source (Python floats) are modelled as rationals.
   External collaborators that are not part of this repository are modelled
   explicitly: the QuantLib finite-difference engine is an explicit functional
   parameter of the embedded functions (the source hands it a fully determined
   set of arguments, captured in the EngineCall record below), and
   scipy.optimize.newton is modelled from its documented secant iteration with
   its default control parameters.  Everything the wrapper itself computes
   (dates, day truncation, the dividend schedule zip, the hard-coded grid
   resolution, the global evaluation-date write, the exception handling of the
   implied-volatility solver) is translated directly from the source. -/

/-- Python exception classes relevant to the source: runtimeError is Python's
RuntimeError, which scipy.optimize.newton raises on non-convergence and which
QuantLib-Python raises for engine failures; invalidInput stands for the spec's
dedicated InvalidInput error class (the source never raises it); otherError
stands for any other Python exception class. -/
inductive PyErr where
  | invalidInput : PyErr
  | runtimeError : PyErr
  | otherError : PyErr
deriving DecidableEq, Repr

/-- Truncation toward zero: the semantics of Python int() applied to a float,
as in int(maturity * 365) at src/nbs/pricing.py line 44 and line 54. -/
def pyInt (q : ℚ) : ℤ := if 0 ≤ q then ⌊q⌋ else -⌊-q⌋

/-- The process-wide QuantLib settings object ql.Settings.instance(), modelled
by its evaluation date (a serial day number). -/
structure GlobalSettings where
  evaluationDate : ℤ
deriving DecidableEq, Repr

/-- Serial day number of ql.Date(1, 1, 2024), the calculation date hard-coded
by price_american_call_pde. -/
def calculation_date : ℤ := 45292

/-- The arguments of price_american_call_pde, in source order. -/
structure PricingInputs where
  spot : ℚ
  strike : ℚ
  rate : ℚ
  div_yield : ℚ
  maturity : ℚ
  volatility : ℚ
  dividends : List ℚ
  dividend_times : List ℚ
deriving DecidableEq, Repr

/-- Everything price_american_call_pde hands to the external QuantLib objects
and engine: the curves and volatility surface are flat, so they are determined
by the numbers below; the exercise window is a pair of serial dates; the
dividend schedule is the list of (payment date, amount) pairs appended in the
source's zip loop; timeSteps and gridPoints are the engine's resolution. -/
structure EngineCall where
  evaluationDate : ℤ
  spot : ℚ
  rate : ℚ
  div_yield : ℚ
  volatility : ℚ
  strike : ℚ
  exerciseEarliest : ℤ
  exerciseLatest : ℤ
  schedule : List (ℤ × ℚ)
  timeSteps : ℕ
  gridPoints : ℕ
deriving DecidableEq, Repr

/-- The engine call built by the body of price_american_call_pde: the exercise
runs from the calculation date to calculation_date + int(maturity * 365) days,
each dividend date is calculation_date + int(t * 365) days, the schedule is
zip(dividend_dates_ql, dividends), and the resolution is the hard-coded
timeSteps=100, gridPoints=100. -/
def engineCallOf (inp : PricingInputs) : EngineCall :=
  { evaluationDate := calculation_date
    spot := inp.spot
    rate := inp.rate
    div_yield := inp.div_yield
    volatility := inp.volatility
    strike := inp.strike
    exerciseEarliest := calculation_date
    exerciseLatest := calculation_date + pyInt (inp.maturity * 365)
    schedule := (inp.dividend_times.map (fun t => calculation_date + pyInt (t * 365))).zip
      inp.dividends
    timeSteps := 100
    gridPoints := 100 }

/-- price_american_call_pde, src/nbs/pricing.py lines 6..64: it first writes
the fixed calculation date into the process-wide settings, builds the QuantLib
objects summarised by engineCallOf (performing no validation of its own), runs
the engine and returns option.NPV().  The pair returned here is (the value or
exception of the call, the final state of the global settings). -/
def price_american_call_pde (engine : EngineCall → Except PyErr ℚ)
    (inp : PricingInputs) (_settings : GlobalSettings) :
    Except PyErr ℚ × GlobalSettings :=
  (engine (engineCallOf inp), { evaluationDate := calculation_date })

/-- The value component of a pricing call; it does not depend on the incoming
global settings because the source overwrites the evaluation date first. -/
def priceValue (engine : EngineCall → Except PyErr ℚ) (inp : PricingInputs) :
    Except PyErr ℚ :=
  engine (engineCallOf inp)

/-- The objective function closed over by implied_volatility_american_call_pde:
vol is mapped to price_american_call_pde(..., vol, ...) - target_price, with
any exception of the pricing call propagating. -/
def objective_function (engine : EngineCall → Except PyErr ℚ)
    (target_price spot strike rate div_yield maturity : ℚ)
    (dividends dividend_times : List ℚ) (vol : ℚ) : Except PyErr ℚ :=
  Except.map (fun price => price - target_price)
    (priceValue engine ⟨spot, strike, rate, div_yield, maturity, vol, dividends, dividend_times⟩)

/-- Modelled from the spec: scipy.optimize.newton is not part of this
repository.  Its default maximum iteration count. -/
def newtonMaxiter : ℕ := 50

/-- Modelled from the spec: scipy.optimize.newton's default absolute step
tolerance tol=1.48e-8 (its default rtol is 0). -/
def newtonTol : ℚ := 1.48e-8

/-- Modelled from the spec: the second starting point scipy.optimize.newton
derives from the initial guess when no derivative is supplied,
p1 = x0 * (1 + 1e-4) plus 1e-4 with the sign of x0 * (1 + 1e-4). -/
def newtonSecondPoint (x0 : ℚ) : ℚ :=
  if 0 ≤ x0 * (1 + 1e-4) then x0 * (1 + 1e-4) + 1e-4 else x0 * (1 + 1e-4) - 1e-4

/-- Modelled from the spec: the secant update scipy.optimize.newton computes
from the two latest iterates and their objective values, written with the
larger absolute objective value in the denominator for stability. -/
def secantUpdate (p0 q0 p1 q1 : ℚ) : ℚ :=
  if |q1| > |q0| then (-q0 / q1 * p1 + p0) / (1 - q0 / q1)
  else (-q1 / q0 * p0 + p1) / (1 - q1 / q0)

/-- Modelled from the spec: one run of scipy.optimize.newton's secant loop.
State (p0, q0, p1, q1) holds the two latest iterates and their objective
values; the fuel is the remaining iteration budget.  Exhausted fuel and the
equal-values/distinct-points degenerate case raise RuntimeError; a step within
newtonTol of the previous iterate returns that iterate as converged; objective
exceptions propagate. -/
def secantLoop (f : ℚ → Except PyErr ℚ) :
    ℕ → ℚ → ℚ → ℚ → ℚ → Except PyErr ℚ
  | 0, _, _, _, _ => Except.error PyErr.runtimeError
  | n + 1, p0, q0, p1, q1 =>
    if q1 = q0 then
      if p1 = p0 then Except.ok ((p1 + p0) / 2)
      else Except.error PyErr.runtimeError
    else
      if |secantUpdate p0 q0 p1 q1 - p1| ≤ newtonTol then
        Except.ok (secantUpdate p0 q0 p1 q1)
      else
        match f (secantUpdate p0 q0 p1 q1) with
        | Except.ok q => secantLoop f n p1 q1 (secantUpdate p0 q0 p1 q1) q
        | Except.error e => Except.error e

/-- Modelled from the spec: scipy.optimize.newton called without a derivative,
as the source calls it.  It evaluates the objective at the guess and at the
derived second point, orders the pair so that the smaller absolute value is
current, and runs the secant loop with the default budget. -/
def scipyNewton (f : ℚ → Except PyErr ℚ) (x0 : ℚ) : Except PyErr ℚ :=
  match f x0, f (newtonSecondPoint x0) with
  | Except.ok q0, Except.ok q1 =>
    if |q1| < |q0| then secantLoop f newtonMaxiter (newtonSecondPoint x0) q1 x0 q0
    else secantLoop f newtonMaxiter x0 q0 (newtonSecondPoint x0) q1
  | Except.error e, _ => Except.error e
  | _, Except.error e => Except.error e

/-- implied_volatility_american_call_pde, src/nbs/pricing.py lines 66..99: it
runs newton on the objective, returns the iterate on success, returns None
(here: Except.ok none) when a RuntimeError escapes newton, and lets every
other exception class propagate.  The source gives guess the default 0.2. -/
def implied_volatility_american_call_pde (engine : EngineCall → Except PyErr ℚ)
    (target_price spot strike rate div_yield maturity : ℚ)
    (dividends dividend_times : List ℚ) (guess : ℚ) : Except PyErr (Option ℚ) :=
  match scipyNewton
      (objective_function engine target_price spot strike rate div_yield maturity
        dividends dividend_times) guess with
  | Except.ok v => Except.ok (some v)
  | Except.error PyErr.runtimeError => Except.ok none
  | Except.error e => Except.error e

/-- An engine behavior returning the numeric value 0 for every call; used to
exhibit that the wrapper defers every outcome, including a numeric result for
invalid inputs, to the engine. -/
def engineConstZero : EngineCall → Except PyErr ℚ := fun _ => Except.ok 0

/-- Modelled from the spec: QuantLib-Python surfaces engine input errors (for
example a non-positive spot) as Python RuntimeError; this engine behavior
fails that way on every call. -/
def engineInvalid : EngineCall → Except PyErr ℚ := fun _ => Except.error PyErr.runtimeError

/-- An engine behavior whose price echoes the volatility it was given; a
simple engine with non-degenerate dependence on volatility. -/
def volEngine : EngineCall → Except PyErr ℚ := fun c => Except.ok c.volatility

/-- An engine behavior whose price depends on the exercise window and on the
dividend schedule it was handed. -/
def probeEngine : EngineCall → Except PyErr ℚ :=
  fun c => Except.ok ((c.exerciseLatest : ℚ) + (c.schedule.length : ℚ))

/-- An engine behavior returning the immediate exercise value spot - strike,
independent of volatility: the price shape of an intrinsic-dominated
deep-in-the-money American call, whose measured vega is exactly zero. -/
def intrinsicEngine : EngineCall → Except PyErr ℚ :=
  fun c => Except.ok (c.spot - c.strike)

/-- The example inputs at the bottom of src/nbs/pricing.py. -/
def sampleInputs : PricingInputs :=
  ⟨100, 100, 5/100, 2/100, 1, 1/5, [2, 3/2], [1/4, 3/4]⟩

namespace SpecPDE

/- Modelled from the spec: the finite-difference engine itself (QuantLib's
   FDAmericanEngine) is not part of this repository, so the grid pricer of
   spec section 4.1 is modelled here.  The grid is a column of option values
   indexed by price level; the one-time-step PDE solve of step 3a (which
   carries the scheme and the boundary conditions) is an explicit functional
   parameter, while the early-exercise projection of step 3b, the dividend
   interpolation of step 3c, the terminal payoff of step 2 and the final
   readout of step 4 are implemented literally. -/

/-- Modelled from the spec: a grid specification: Ns price points on [0, Smax],
Nt time steps on [0, T], strike K, and the (time, amount) dividend schedule. -/
structure GridSpec where
  Ns : ℕ
  Nt : ℕ
  Smax : ℚ
  K : ℚ
  T : ℚ
  schedule : List (ℚ × ℚ)
deriving DecidableEq, Repr

/-- Uniform price-grid spacing Smax / (Ns - 1). -/
def gridH (Ns : ℕ) (Smax : ℚ) : ℚ := Smax / ((Ns - 1 : ℕ) : ℚ)

/-- The i-th price level S_i = i * gridH. -/
def gridLevel (Ns : ℕ) (Smax : ℚ) (i : ℕ) : ℚ := (i : ℚ) * gridH Ns Smax

/-- Index of the grid interval containing x. -/
def interpJ (Ns : ℕ) (Smax : ℚ) (x : ℚ) : ℕ := (⌊x / gridH Ns Smax⌋).toNat

/-- Barycentric weight of x inside its grid interval. -/
def interpW (Ns : ℕ) (Smax : ℚ) (x : ℚ) : ℚ :=
  (x - (interpJ Ns Smax x : ℚ) * gridH Ns Smax) / gridH Ns Smax

/-- Modelled from the spec: linear interpolation of a grid column at price x,
clamped to the boundary values when x falls outside [0, Smax] (spec section
4.1, numeric semantics: dividend interpolation must not extrapolate). -/
def clampedInterp (Ns : ℕ) (Smax : ℚ) (col : ℕ → ℚ) (x : ℚ) : ℚ :=
  if x ≤ 0 then col 0
  else if Smax ≤ x then col (Ns - 1)
  else
    (1 - interpW Ns Smax x) * col (interpJ Ns Smax x) +
      interpW Ns Smax x * col (interpJ Ns Smax x + 1)

/-- The uniform time-step size T / Nt. -/
def timeStep (g : GridSpec) : ℚ := g.T / (g.Nt : ℚ)

/-- Modelled from the spec: the dividend amounts applied at time level j, the
nearest step at or below the dividend date (late-application policy). -/
def divsAt (g : GridSpec) (j : ℕ) : List ℚ :=
  (g.schedule.filter (fun p => ⌊p.1 / timeStep g⌋ = (j : ℤ))).map Prod.snd

/-- Modelled from the spec, step 3c: each dividend remaps the column by
reading the post-dividend curve at S_i - D with clamped interpolation. -/
def applyDivList (Ns : ℕ) (Smax : ℚ) (ds : List ℚ) (col : ℕ → ℚ) : ℕ → ℚ :=
  ds.foldl (fun c D => fun i => clampedInterp Ns Smax c (gridLevel Ns Smax i - D)) col

/-- Modelled from the spec, step 3b: the American early-exercise projection,
flooring the solved value at S_i - K at every price level. -/
def project (g : GridSpec) (col : ℕ → ℚ) : ℕ → ℚ :=
  fun i => max (col i) (gridLevel g.Ns g.Smax i - g.K)

/-- One backward American time step at level j: PDE solve, then projection,
then the dividends due at this level.  The solver argument is the one-step
finite-difference solve of step 3a. -/
def amStep (solver : ℕ → (ℕ → ℚ) → ℕ → ℚ) (g : GridSpec) (j : ℕ)
    (col : ℕ → ℚ) : ℕ → ℚ :=
  applyDivList g.Ns g.Smax (divsAt g j) (project g (solver j col))

/-- One backward European time step at level j: the same solve and dividends,
without the early-exercise projection. -/
def euStep (solver : ℕ → (ℕ → ℚ) → ℕ → ℚ) (g : GridSpec) (j : ℕ)
    (col : ℕ → ℚ) : ℕ → ℚ :=
  applyDivList g.Ns g.Smax (divsAt g j) (solver j col)

/-- Backward evolution of the American column from time level m down to 0. -/
def amEvolve (solver : ℕ → (ℕ → ℚ) → ℕ → ℚ) (g : GridSpec) :
    ℕ → (ℕ → ℚ) → ℕ → ℚ
  | 0, col => col
  | m + 1, col => amEvolve solver g m (amStep solver g m col)

/-- Backward evolution of the European column from time level m down to 0. -/
def euEvolve (solver : ℕ → (ℕ → ℚ) → ℕ → ℚ) (g : GridSpec) :
    ℕ → (ℕ → ℚ) → ℕ → ℚ
  | 0, col => col
  | m + 1, col => euEvolve solver g m (euStep solver g m col)

/-- Modelled from the spec, step 2: the terminal column is the call payoff
max(S_i - K, 0). -/
def terminalCol (g : GridSpec) : ℕ → ℚ :=
  fun i => max (gridLevel g.Ns g.Smax i - g.K) 0

/-- Modelled from the spec: the American grid price, read off the evolved
t = 0 column at S = spot by clamped linear interpolation (step 4). -/
def amPrice (solver : ℕ → (ℕ → ℚ) → ℕ → ℚ) (g : GridSpec) (spot : ℚ) : ℚ :=
  clampedInterp g.Ns g.Smax (amEvolve solver g g.Nt (terminalCol g)) spot

/-- The European price computed on the same grid without the early-exercise
projection. -/
def euPrice (solver : ℕ → (ℕ → ℚ) → ℕ → ℚ) (g : GridSpec) (spot : ℚ) : ℚ :=
  clampedInterp g.Ns g.Smax (euEvolve solver g g.Nt (terminalCol g)) spot

end SpecPDE

/-- A trivial one-step solver (the identity on columns): a concrete monotone,
nonnegativity-preserving instantiation of the solver parameter. -/
def constSolver : ℕ → (ℕ → ℚ) → ℕ → ℚ := fun _ c => c

/-- A small concrete grid: 3 price points on [0, 200], one time step on [0, 1],
strike 100, no dividends. -/
def sampleGrid : SpecPDE.GridSpec := ⟨3, 1, 200, 100, 1, []⟩

/-- The same grid with one dividend of 50 at time 1/2, which the spec's
late-application policy snaps to the valuation time level 0. -/
def divGrid : SpecPDE.GridSpec := ⟨3, 1, 200, 100, 1, [(1/2, 50)]⟩

/-- Concrete inputs differing from sampleInputs in every field. -/
def inputsAlt : PricingInputs := ⟨7, 3, 1/10, 0, 2, 3/5, [], []⟩

/-- Concrete inputs whose dividends list is longer than the dividend_times
list. -/
def inputsLonger : PricingInputs :=
  ⟨100, 100, 5/100, 2/100, 1, 1/5, [2, 3/2, 7], [1/4, 3/4]⟩

/- Lemmas. -/

/-- Python int() agrees with the floor on nonnegative values. -/
theorem pyInt_of_nonneg (q : ℚ) (h : 0 ≤ q) : pyInt q = ⌊q⌋ := by
  simp [pyInt, h]

/-- Two lists of positive dividend times with pointwise equal day truncations
produce the same list of dividend dates. -/
theorem dividendDates_congr {ts1 ts2 : List ℚ}
    (h : List.Forall₂ (fun t1 t2 => 0 < t1 ∧ 0 < t2 ∧ ⌊t1 * (365:ℚ)⌋ = ⌊t2 * 365⌋) ts1 ts2) :
    ts1.map (fun t => calculation_date + pyInt (t * 365)) =
      ts2.map (fun t => calculation_date + pyInt (t * 365)) := by
  induction h with
  | nil => rfl
  | cons hh _ ih =>
    simp only [List.map_cons, ih, List.cons.injEq, and_true]
    rw [pyInt_of_nonneg _ (mul_nonneg hh.1.le (by norm_num)),
      pyInt_of_nonneg _ (mul_nonneg hh.2.1.le (by norm_num)), hh.2.2]

/-- Zipping truncates both lists to the length of the shorter one. -/
theorem zip_take_min {α β : Type} :
    ∀ (xs : List α) (ys : List β),
      xs.zip ys = (xs.take (min xs.length ys.length)).zip (ys.take (min xs.length ys.length))
  | [], ys => by simp
  | x :: xs, [] => by simp
  | x :: xs, y :: ys => by
    simp only [List.zip_cons_cons, List.length_cons, Nat.succ_min_succ,
      List.take_succ_cons]
    exact congrArg (List.cons (x, y)) (zip_take_min xs ys)

/- Claim theorems. -/

/-- C1, counterexample: with spot = -1 (an invalid input, spot ≤ 0) the
pricing call performs no validation at all: handed an engine behavior that
returns a number, it returns that number, and in particular it does not fail
with the InvalidInput error the claim requires. -/
theorem c1_counterexample :
    (price_american_call_pde engineConstZero ⟨-1, 100, 5/100, 2/100, 1, 1/5, [], []⟩ ⟨0⟩).1 =
      Except.ok 0
    ∧ (price_american_call_pde engineConstZero ⟨-1, 100, 5/100, 2/100, 1, 1/5, [], []⟩ ⟨0⟩).1 ≠
      Except.error PyErr.invalidInput :=
  ⟨rfl, fun h => Except.noConfusion h⟩

/-- C1, amended: price_american_call_pde performs no input validation: for
every input, valid or not, its value is exactly the external engine's outcome
for the constructed call, and the resolution of that call is the hard-coded
100 × 100 (so no InvalidInput error is ever raised before — or instead of —
the engine's own grid work, and degenerate resolution parameters cannot be
supplied). -/
theorem c1_amended (engine : EngineCall → Except PyErr ℚ) (inp : PricingInputs)
    (s : GlobalSettings) :
    (price_american_call_pde engine inp s).1 = engine (engineCallOf inp)
    ∧ (engineCallOf inp).timeSteps = 100 ∧ (engineCallOf inp).gridPoints = 100 :=
  ⟨rfl, rfl, rfl⟩

/-- C3, counterexample: a pricing call started with the global evaluation date
at 0 finishes with a different global state — the pricer mutates the
process-wide settings, so it is not free of side effects. -/
theorem c3_counterexample :
    (price_american_call_pde engineConstZero sampleInputs ⟨0⟩).2 ≠ (⟨0⟩ : GlobalSettings) := by
  decide

/-- C3, amended: the pricer writes the fixed calculation date into the
process-wide settings on every call (a global side effect), but its returned
value does not depend on the incoming global state. -/
theorem c3_amended (engine : EngineCall → Except PyErr ℚ) (inp : PricingInputs)
    (s sAlt : GlobalSettings) :
    (price_american_call_pde engine inp s).1 = (price_american_call_pde engine inp sAlt).1
    ∧ (price_american_call_pde engine inp s).2.evaluationDate = calculation_date :=
  ⟨rfl, rfl⟩

/-- C5, counterexample: two pricing inputs differing in every field produce
engine calls with the same grid resolution, and the solver's iteration budget
and tolerance are the fixed library defaults — none of these controls is
taken from the caller, contrary to the claim. -/
theorem c5_counterexample :
    (engineCallOf sampleInputs).timeSteps = (engineCallOf inputsAlt).timeSteps
    ∧ (engineCallOf sampleInputs).gridPoints = (engineCallOf inputsAlt).gridPoints
    ∧ newtonMaxiter = 50 ∧ newtonTol = 1.48e-8 :=
  ⟨rfl, rfl, rfl, rfl⟩

/-- C5, amended: the pricer's grid resolution is hard-coded to 100 time steps
and 100 grid points in every engine call, and the implied-volatility solver
runs with the external root finder's fixed defaults (50 iterations, tolerance
1.48e-8); callers cannot supply any of these controls. -/
theorem c5_amended (inp : PricingInputs) :
    (engineCallOf inp).timeSteps = 100 ∧ (engineCallOf inp).gridPoints = 100
    ∧ newtonMaxiter = 50 ∧ newtonTol = 1.48e-8 :=
  ⟨rfl, rfl, rfl, rfl⟩

/-- C9: the pricer truncates maturity and every dividend time to whole days
(int(t * 365), which is the floor for the positive values involved), so two
inputs with the same day truncations price identically under every engine
behavior; and a positive maturity below 1/365 gives an exercise window of
zero days. -/
theorem c9_day_truncation :
    (∀ (engine : EngineCall → Except PyErr ℚ) (inp : PricingInputs) (m2 : ℚ) (ts2 : List ℚ),
      0 < inp.maturity → 0 < m2 → ⌊inp.maturity * (365:ℚ)⌋ = ⌊m2 * 365⌋ →
      List.Forall₂ (fun t1 t2 => 0 < t1 ∧ 0 < t2 ∧ ⌊t1 * (365:ℚ)⌋ = ⌊t2 * 365⌋)
        inp.dividend_times ts2 →
      priceValue engine inp = priceValue engine { inp with maturity := m2, dividend_times := ts2 })
    ∧ (∀ inp : PricingInputs, 0 < inp.maturity → inp.maturity < 1/365 →
        (engineCallOf inp).exerciseLatest = (engineCallOf inp).exerciseEarliest) := by
  constructor
  · intro engine inp m2 ts2 hm1 hm2 hm hts
    unfold priceValue
    congr 1
    simp only [engineCallOf, EngineCall.mk.injEq, true_and, and_true]
    refine ⟨?_, ?_⟩
    · rw [pyInt_of_nonneg _ (mul_nonneg hm1.le (by norm_num)),
        pyInt_of_nonneg _ (mul_nonneg hm2.le (by norm_num)), hm]
    · rw [dividendDates_congr hts]
  · intro inp h1 h2
    have h365 : (0:ℚ) ≤ inp.maturity * 365 := mul_nonneg h1.le (by norm_num)
    have hfl : ⌊inp.maturity * (365:ℚ)⌋ = 0 := by
      rw [Int.floor_eq_zero_iff]
      exact Set.mem_Ico.mpr ⟨h365, by linarith⟩
    simp [engineCallOf, pyInt_of_nonneg _ h365, hfl]

/-- C9, witness: maturities 1/2 and 0.4995 both truncate to day 182 and
dividend times 1/4 and 0.2501 both truncate to day 91, so the prices agree
under an engine that depends on the dates; and maturity 1/400 < 1/365 gives a
zero-day exercise window. -/
theorem c9_witness :
    priceValue probeEngine ⟨100, 100, 5/100, 2/100, 1/2, 1/5, [2], [1/4]⟩ =
      priceValue probeEngine ⟨100, 100, 5/100, 2/100, 4995/10000, 1/5, [2], [2501/10000]⟩
    ∧ (engineCallOf ⟨100, 100, 5/100, 2/100, 1/400, 1/5, [], []⟩).exerciseLatest =
      (engineCallOf ⟨100, 100, 5/100, 2/100, 1/400, 1/5, [], []⟩).exerciseEarliest :=
  ⟨c9_day_truncation.1 probeEngine ⟨100, 100, 5/100, 2/100, 1/2, 1/5, [2], [1/4]⟩
      (4995/10000) [2501/10000] (by norm_num) (by norm_num) (by norm_num)
      (List.Forall₂.cons ⟨by norm_num, by norm_num, by norm_num⟩ List.Forall₂.nil),
    c9_day_truncation.2 ⟨100, 100, 5/100, 2/100, 1/400, 1/5, [], []⟩ (by norm_num) (by norm_num)⟩

/-- C10: when the dividends and dividend_times lists have different lengths
the pricer raises no error: zip truncates to the shorter list, so the price
equals the price with both lists truncated (the extra entries are ignored)
and the schedule handed to the engine has the shorter length. -/
theorem c10_zip_truncation (engine : EngineCall → Except PyErr ℚ) (inp : PricingInputs)
    (h : inp.dividends.length ≠ inp.dividend_times.length) :
    priceValue engine inp = priceValue engine { inp with
        dividends := inp.dividends.take (min inp.dividends.length inp.dividend_times.length),
        dividend_times :=
          inp.dividend_times.take (min inp.dividends.length inp.dividend_times.length) }
    ∧ (engineCallOf inp).schedule.length =
        min inp.dividends.length inp.dividend_times.length := by
  constructor
  · unfold priceValue
    congr 1
    simp only [engineCallOf, EngineCall.mk.injEq, true_and, and_true]
    rw [List.map_take]
    rw [zip_take_min (inp.dividend_times.map (fun t => calculation_date + pyInt (t * 365)))
      inp.dividends]
    simp only [List.length_map]
    rw [Nat.min_comm]
  · simp only [engineCallOf, List.length_zip, List.length_map]
    exact Nat.min_comm _ _

/-- C10, witness: three dividends against two dividend times price exactly as
the first two dividends against the two times, with a two-entry schedule. -/
theorem c10_witness :
    priceValue probeEngine inputsLonger =
      priceValue probeEngine
        { inputsLonger with dividends := [2, 3/2], dividend_times := [1/4, 3/4] }
    ∧ (engineCallOf inputsLonger).schedule.length = 2 :=
  c10_zip_truncation probeEngine inputsLonger (by decide)

/- Lemmas about the modelled root finder. -/

/-- The default step tolerance is positive. -/
theorem newtonTol_pos : 0 < newtonTol := by norm_num [newtonTol]

/-- Unfolding equation for one secant iteration. -/
theorem secantLoop_succ (f : ℚ → Except PyErr ℚ) (n : ℕ) (p0 q0 p1 q1 : ℚ) :
    secantLoop f (n + 1) p0 q0 p1 q1 =
      if q1 = q0 then
        if p1 = p0 then Except.ok ((p1 + p0) / 2)
        else Except.error PyErr.runtimeError
      else
        if |secantUpdate p0 q0 p1 q1 - p1| ≤ newtonTol then
          Except.ok (secantUpdate p0 q0 p1 q1)
        else
          match f (secantUpdate p0 q0 p1 q1) with
          | Except.ok q => secantLoop f n p1 q1 (secantUpdate p0 q0 p1 q1) q
          | Except.error e => Except.error e := rfl

/-- Both branches of the secant update move from p1 by q1 * (p0 - p1) / (q1 - q0). -/
theorem secantUpdate_sub (p0 q0 p1 q1 : ℚ) (hq0 : q0 ≠ 0) (hq1 : q1 ≠ 0)
    (hne : q1 ≠ q0) :
    secantUpdate p0 q0 p1 q1 - p1 = q1 * (p0 - p1) / (q1 - q0) := by
  have hsub : q1 - q0 ≠ 0 := sub_ne_zero.mpr hne
  have hsub2 : q0 - q1 ≠ 0 := sub_ne_zero.mpr (Ne.symm hne)
  unfold secantUpdate
  split_ifs with hcmp
  · have hden : (1 : ℚ) - q0 / q1 ≠ 0 := by
      rw [show (1 : ℚ) - q0 / q1 = (q1 - q0) / q1 by field_simp]
      exact div_ne_zero hsub hq1
    rw [eq_div_iff hsub]
    field_simp [hden]
    ring
  · have hden : (1 : ℚ) - q1 / q0 ≠ 0 := by
      rw [show (1 : ℚ) - q1 / q0 = (q0 - q1) / q0 by field_simp]
      exact div_ne_zero hsub2 hq0
    rw [eq_div_iff hsub]
    field_simp [hden]
    ring

/-- If the objective values are at least d in absolute value and satisfy a
Lipschitz-type bound with constant L, the secant step stays farther than the
tolerance from the previous iterate. -/
theorem secantUpdate_far (p0 q0 p1 q1 L d : ℚ) (hL : 0 < L) (hd : L * newtonTol < d)
    (hq0 : d ≤ |q0|) (hq1 : d ≤ |q1|) (hne : q1 ≠ q0) (hpp : p0 ≠ p1)
    (hlipstep : |q1 - q0| ≤ L * |p1 - p0|) :
    newtonTol < |secantUpdate p0 q0 p1 q1 - p1| := by
  have hd0 : 0 < d := lt_of_le_of_lt (mul_nonneg hL.le newtonTol_pos.le) hd
  have hq0ne : q0 ≠ 0 := fun h => by rw [h, abs_zero] at hq0; linarith
  have hq1ne : q1 ≠ 0 := fun h => by rw [h, abs_zero] at hq1; linarith
  rw [secantUpdate_sub _ _ _ _ hq0ne hq1ne hne, abs_div, abs_mul]
  have hsubpos : 0 < |q1 - q0| := abs_pos.mpr (sub_ne_zero.mpr hne)
  have hpppos : 0 < |p0 - p1| := abs_pos.mpr (sub_ne_zero.mpr hpp)
  have key : d / L ≤ |q1| * |p0 - p1| / |q1 - q0| := by
    rw [div_le_div_iff₀ hL hsubpos]
    calc d * |q1 - q0| ≤ d * (L * |p1 - p0|) :=
          mul_le_mul_of_nonneg_left hlipstep hd0.le
      _ = d * |p0 - p1| * L := by rw [abs_sub_comm p1 p0]; ring
      _ ≤ |q1| * |p0 - p1| * L := by
          have h1 : d * |p0 - p1| ≤ |q1| * |p0 - p1| :=
            mul_le_mul_of_nonneg_right hq1 hpppos.le
          exact mul_le_mul_of_nonneg_right h1 hL.le
  have htl : newtonTol < d / L := by
    rw [lt_div_iff₀ hL]
    linarith [hd]
  linarith

/-- Under the hypotheses of secantUpdate_far at every pair of iterates, the
secant loop never converges: it ends in RuntimeError (budget exhausted or
equal objective values at distinct points). -/
theorem secantLoop_diverges (f : ℚ → Except PyErr ℚ) (L d : ℚ)
    (hL : 0 < L) (hd : L * newtonTol < d)
    (htot : ∀ v, ∃ y, f v = Except.ok y ∧ d ≤ |y|)
    (hlip : ∀ v w y z, f v = Except.ok y → f w = Except.ok z → |y - z| ≤ L * |v - w|) :
    ∀ (n : ℕ) (p0 q0 p1 q1 : ℚ), p0 ≠ p1 → f p0 = Except.ok q0 → f p1 = Except.ok q1 →
      secantLoop f n p0 q0 p1 q1 = Except.error PyErr.runtimeError := by
  intro n
  induction n with
  | zero => intro p0 q0 p1 q1 _ _ _; rfl
  | succ n ih =>
    intro p0 q0 p1 q1 hne h0 h1
    have hq0d : d ≤ |q0| := by
      obtain ⟨y, hy, hyd⟩ := htot p0
      rw [h0] at hy
      rw [Except.ok.inj hy]
      exact hyd
    have hq1d : d ≤ |q1| := by
      obtain ⟨y, hy, hyd⟩ := htot p1
      rw [h1] at hy
      rw [Except.ok.inj hy]
      exact hyd
    rw [secantLoop_succ]
    by_cases hqq : q1 = q0
    · rw [if_pos hqq, if_neg (fun hpp => hne hpp.symm)]
    · rw [if_neg hqq]
      have hfar := secantUpdate_far p0 q0 p1 q1 L d hL hd hq0d hq1d hqq hne
        (hlip p1 p0 q1 q0 h1 h0)
      rw [if_neg (not_le.mpr hfar)]
      obtain ⟨y, hy, _⟩ := htot (secantUpdate p0 q0 p1 q1)
      rw [hy]
      refine ih p1 q1 (secantUpdate p0 q0 p1 q1) y ?_ h1 hy
      intro h
      rw [← h, sub_self, abs_zero] at hfar
      exact absurd hfar (not_lt.mpr newtonTol_pos.le)

/-- The two starting points of the modelled newton are always distinct. -/
theorem newtonSecondPoint_ne (x0 : ℚ) : x0 ≠ newtonSecondPoint x0 := by
  unfold newtonSecondPoint
  split_ifs with hpa
  · intro h
    have hx : x0 * (1e-4 : ℚ) + 1e-4 = 0 := by linarith
    have : x0 = -1 := by linarith
    rw [this] at hpa
    norm_num at hpa
  · intro h
    have : x0 = 1 := by linarith
    rw [this] at hpa
    norm_num at hpa

/-- A total objective bounded away from zero with a Lipschitz-type bound makes
the whole modelled newton run fail with RuntimeError. -/
theorem scipyNewton_diverges (f : ℚ → Except PyErr ℚ) (L d : ℚ)
    (hL : 0 < L) (hd : L * newtonTol < d)
    (htot : ∀ v, ∃ y, f v = Except.ok y ∧ d ≤ |y|)
    (hlip : ∀ v w y z, f v = Except.ok y → f w = Except.ok z → |y - z| ≤ L * |v - w|)
    (x0 : ℚ) :
    scipyNewton f x0 = Except.error PyErr.runtimeError := by
  obtain ⟨y0, hy0, _⟩ := htot x0
  obtain ⟨y1, hy1, _⟩ := htot (newtonSecondPoint x0)
  have hne := newtonSecondPoint_ne x0
  unfold scipyNewton
  simp only [hy0, hy1]
  split_ifs with hcmp
  · exact secantLoop_diverges f L d hL hd htot hlip newtonMaxiter
      (newtonSecondPoint x0) y1 x0 y0 (Ne.symm hne) hy1 hy0
  · exact secantLoop_diverges f L d hL hd htot hlip newtonMaxiter
      x0 y0 (newtonSecondPoint x0) y1 hne hy0 hy1

/-- Newton started exactly at a root of the objective returns that root after
two secant iterations, provided the objective is nonzero at the derived
second point. -/
theorem scipyNewton_exact_guess (f : ℚ → Except PyErr ℚ) (x0 q : ℚ)
    (hx : 0 < x0) (h0 : f x0 = Except.ok 0)
    (h1 : f (x0 * (1 + 1e-4) + 1e-4) = Except.ok q) (hq : q ≠ 0) :
    scipyNewton f x0 = Except.ok x0 := by
  have hpa : (0:ℚ) ≤ x0 * (1 + 1e-4) := mul_nonneg hx.le (by norm_num)
  have hsp : newtonSecondPoint x0 = x0 * (1 + 1e-4) + 1e-4 := by
    unfold newtonSecondPoint
    rw [if_pos hpa]
  have hupd1 : secantUpdate x0 0 (x0 * (1 + 1e-4) + 1e-4) q = x0 := by
    unfold secantUpdate
    rw [if_pos (by simpa using abs_pos.mpr hq)]
    simp
  have hupd2 : secantUpdate (x0 * (1 + 1e-4) + 1e-4) q x0 0 = x0 := by
    unfold secantUpdate
    rw [if_neg (by simp [abs_nonneg])]
    simp
  have hfar : ¬ |x0 - (x0 * (1 + 1e-4) + 1e-4)| ≤ newtonTol := by
    rw [abs_sub_comm, abs_of_pos (by nlinarith)]
    norm_num [newtonTol]
    nlinarith
  unfold scipyNewton
  rw [hsp]
  simp only [h0, h1]
  rw [if_neg (by simp [abs_nonneg])]
  show secantLoop f (48 + 1 + 1) x0 0 (x0 * (1 + 1e-4) + 1e-4) q = Except.ok x0
  rw [secantLoop_succ, if_neg hq, hupd1, if_neg hfar, h0]
  show secantLoop f (48 + 1) (x0 * (1 + 1e-4) + 1e-4) q x0 0 = Except.ok x0
  rw [secantLoop_succ, if_neg (fun h => hq h.symm), hupd2,
    if_pos (by simp [newtonTol_pos.le])]

/-- C2: for every engine behavior and every input, the implied-volatility
solver returns either a numeric value certified by the root finder, or the
explicit not-converged result None exactly when a RuntimeError escapes the
root finder (fixed 50-iteration budget exhausted, degenerate secant state, or
a RuntimeError raised by a pricing call, as for a non-positive volatility
iterate), or propagates a non-RuntimeError exception — never a sentinel
numeric value.  Moreover, whenever the objective stays at least d away from
zero (an unreachable target price with margin d) and moves at most
Lipschitz-like with constant L, with d above L times the step tolerance, the
solver returns the not-converged result None. -/
theorem c2_solver_outcome (engine : EngineCall → Except PyErr ℚ)
    (target spot strike rate div_yield maturity guess : ℚ)
    (dividends dividend_times : List ℚ) :
    ((∃ v, implied_volatility_american_call_pde engine target spot strike rate div_yield
          maturity dividends dividend_times guess = Except.ok (some v)
        ∧ scipyNewton (objective_function engine target spot strike rate div_yield
            maturity dividends dividend_times) guess = Except.ok v)
      ∨ (implied_volatility_american_call_pde engine target spot strike rate div_yield
          maturity dividends dividend_times guess = Except.ok none
        ∧ scipyNewton (objective_function engine target spot strike rate div_yield
            maturity dividends dividend_times) guess = Except.error PyErr.runtimeError)
      ∨ (∃ e, implied_volatility_american_call_pde engine target spot strike rate div_yield
          maturity dividends dividend_times guess = Except.error e
        ∧ e ≠ PyErr.runtimeError))
    ∧ (∀ L d : ℚ, 0 < L → L * newtonTol < d →
        (∀ v, ∃ y, objective_function engine target spot strike rate div_yield maturity
            dividends dividend_times v = Except.ok y ∧ d ≤ |y|) →
        (∀ v w y z,
          objective_function engine target spot strike rate div_yield maturity
            dividends dividend_times v = Except.ok y →
          objective_function engine target spot strike rate div_yield maturity
            dividends dividend_times w = Except.ok z →
          |y - z| ≤ L * |v - w|) →
        implied_volatility_american_call_pde engine target spot strike rate div_yield
          maturity dividends dividend_times guess = Except.ok none) := by
  constructor
  · cases h : scipyNewton (objective_function engine target spot strike rate div_yield
        maturity dividends dividend_times) guess with
    | ok v =>
      exact Or.inl ⟨v, by simp [implied_volatility_american_call_pde, h], rfl⟩
    | error e =>
      cases e with
      | runtimeError =>
        exact Or.inr (Or.inl ⟨by simp [implied_volatility_american_call_pde, h], rfl⟩)
      | invalidInput =>
        exact Or.inr (Or.inr ⟨PyErr.invalidInput,
          by simp [implied_volatility_american_call_pde, h],
          fun hc => PyErr.noConfusion hc⟩)
      | otherError =>
        exact Or.inr (Or.inr ⟨PyErr.otherError,
          by simp [implied_volatility_american_call_pde, h],
          fun hc => PyErr.noConfusion hc⟩)
  · intro L d hL hd htot hlip
    have h := scipyNewton_diverges _ L d hL hd htot hlip guess
    simp [implied_volatility_american_call_pde, h]

/-- C2, witness: a constant pricer (price always 0) makes the target price 1
unreachable with margin 1 and Lipschitz constant 1; the solver reports the
explicit not-converged result. -/
theorem c2_witness :
    implied_volatility_american_call_pde engineConstZero 1 100 100 0 0 1 [] [] (1/5) =
      Except.ok none :=
  (c2_solver_outcome engineConstZero 1 100 100 0 0 1 (1/5) [] []).2 1 1
    (by norm_num) (by norm_num [newtonTol])
    (fun v => ⟨0 - 1, rfl, by norm_num⟩)
    (fun v w y z hy hz => by
      have hv2 : y = (0:ℚ) - 1 := by
        have hrfl : objective_function engineConstZero 1 100 100 0 0 1 [] [] v =
            Except.ok ((0:ℚ) - 1) := rfl
        rw [hrfl] at hy
        exact (Except.ok.inj hy).symm
      have hw2 : z = (0:ℚ) - 1 := by
        have hrfl : objective_function engineConstZero 1 100 100 0 0 1 [] [] w =
            Except.ok ((0:ℚ) - 1) := rfl
        rw [hrfl] at hz
        exact (Except.ok.inj hz).symm
      rw [hv2, hw2, sub_self, abs_zero]
      positivity)

/-- C4, counterexample: with the malformed input spot = 0 the pricer fails
inside the engine with the RuntimeError class that QuantLib-Python uses, and
the solver's except-RuntimeError handler catches it and reports None — the
failure does not propagate out of the solver, contrary to the claim. -/
theorem c4_counterexample :
    implied_volatility_american_call_pde engineInvalid 3 0 100 (5/100) (2/100) 1 [] [] (1/5) =
      Except.ok none := rfl

/-- C4, amended: the solver's handler selects by exception class, not by
cause: every RuntimeError escaping the root finder — scipy's non-convergence
and equally the engine's invalid-input failures, which QuantLib-Python also
raises as RuntimeError — yields the None result, and only non-RuntimeError
exception classes propagate out of the search. -/
theorem c4_amended (engine : EngineCall → Except PyErr ℚ)
    (target spot strike rate div_yield maturity guess : ℚ)
    (dividends dividend_times : List ℚ) :
    (scipyNewton (objective_function engine target spot strike rate div_yield maturity
        dividends dividend_times) guess = Except.error PyErr.runtimeError →
      implied_volatility_american_call_pde engine target spot strike rate div_yield maturity
        dividends dividend_times guess = Except.ok none)
    ∧ (∀ e : PyErr, e ≠ PyErr.runtimeError →
      scipyNewton (objective_function engine target spot strike rate div_yield maturity
        dividends dividend_times) guess = Except.error e →
      implied_volatility_american_call_pde engine target spot strike rate div_yield maturity
        dividends dividend_times guess = Except.error e) := by
  constructor
  · intro h
    simp [implied_volatility_american_call_pde, h]
  · intro e he h
    cases e with
    | runtimeError => exact absurd rfl he
    | invalidInput => simp [implied_volatility_american_call_pde, h]
    | otherError => simp [implied_volatility_american_call_pde, h]

/-- C4, witness: an engine failing with RuntimeError (the QuantLib-Python
behavior on the malformed spot = -1) is caught: the search returns None. -/
theorem c4_witness :
    implied_volatility_american_call_pde engineInvalid 2 (-1) 100 (5/100) (2/100) 1 [] [] (1/5) =
      Except.ok none :=
  (c4_amended engineInvalid 2 (-1) 100 (5/100) (2/100) 1 (1/5) [] []).1 rfl

/-- When the objective takes the same value at the guess and at the derived
second point (a flat objective, as over a volatility-insensitive price), the
modelled newton hits the equal-values/distinct-points case on its first
iteration and raises RuntimeError. -/
theorem scipyNewton_flat (f : ℚ → Except PyErr ℚ) (x0 y : ℚ)
    (h0 : f x0 = Except.ok y) (h1 : f (newtonSecondPoint x0) = Except.ok y) :
    scipyNewton f x0 = Except.error PyErr.runtimeError := by
  unfold scipyNewton
  simp only [h0, h1]
  rw [if_neg (lt_irrefl (abs y))]
  rw [show newtonMaxiter = 49 + 1 from rfl, secantLoop_succ,
    if_pos rfl, if_neg (Ne.symm (newtonSecondPoint_ne x0))]

/-- C6, counterexample: a valid deep-in-the-money input whose price is the
intrinsic value spot - strike at every volatility (zero measured vega).  The
pricer returns P = 100 at v0 = 1/5, but the solver fed target 100 and guess
v0 returns the not-converged None — the round trip fails, contrary to the
claim that every valid input recovers a volatility near v0. -/
theorem c6_counterexample :
    priceValue intrinsicEngine ⟨200, 100, 5/100, 2/100, 1, 1/5, [], []⟩ = Except.ok 100
    ∧ implied_volatility_american_call_pde intrinsicEngine 100 200 100 (5/100) (2/100) 1 [] []
        (1/5) = Except.ok none := by
  constructor
  · norm_num [priceValue, intrinsicEngine, engineCallOf]
  · have hobj : ∀ v, objective_function intrinsicEngine 100 200 100 (5/100) (2/100) 1 [] [] v =
        Except.ok 0 := by
      intro v
      norm_num [objective_function, priceValue, intrinsicEngine, engineCallOf, Except.map]
    have h := scipyNewton_flat _ (1/5) 0 (hobj _) (hobj _)
    simp only [implied_volatility_american_call_pde, h]

/-- C6, amended: round-trip with initial guess v0 — if the pricer returns P
at volatility v0 > 0, then for every engine behavior the solver called with
target P and guess v0 returns exactly v0 (within the claimed 1e-4) whenever
the price at the root finder's derived perturbation of v0 differs from P
(non-zero measured vega); when the price is flat across that perturbation
(e.g. an intrinsic-dominated deep-in-the-money call), it returns the
not-converged None instead. -/
theorem c6_round_trip (engine : EngineCall → Except PyErr ℚ) (inp : PricingInputs) (P Q : ℚ)
    (hv : 0 < inp.volatility)
    (hP : priceValue engine inp = Except.ok P)
    (hQ : priceValue engine
        { inp with volatility := inp.volatility * (1 + 1e-4) + 1e-4 } = Except.ok Q) :
    (Q ≠ P → ∃ v, implied_volatility_american_call_pde engine P inp.spot inp.strike inp.rate
        inp.div_yield inp.maturity inp.dividends inp.dividend_times inp.volatility =
        Except.ok (some v)
      ∧ |v - inp.volatility| ≤ 1e-4)
    ∧ (Q = P → implied_volatility_american_call_pde engine P inp.spot inp.strike inp.rate
        inp.div_yield inp.maturity inp.dividends inp.dividend_times inp.volatility =
        Except.ok none) := by
  have hobj0 : objective_function engine P inp.spot inp.strike inp.rate inp.div_yield
      inp.maturity inp.dividends inp.dividend_times inp.volatility = Except.ok 0 := by
    unfold objective_function
    have hinp : (⟨inp.spot, inp.strike, inp.rate, inp.div_yield, inp.maturity,
        inp.volatility, inp.dividends, inp.dividend_times⟩ : PricingInputs) = inp := rfl
    rw [hinp, hP]
    simp [Except.map]
  have hobjq : objective_function engine P inp.spot inp.strike inp.rate inp.div_yield
      inp.maturity inp.dividends inp.dividend_times
      (inp.volatility * (1 + 1e-4) + 1e-4) = Except.ok (Q - P) := by
    unfold objective_function
    have hinp : (⟨inp.spot, inp.strike, inp.rate, inp.div_yield, inp.maturity,
        inp.volatility * (1 + 1e-4) + 1e-4, inp.dividends, inp.dividend_times⟩ : PricingInputs) =
        { inp with volatility := inp.volatility * (1 + 1e-4) + 1e-4 } := rfl
    rw [hinp, hQ]
    simp [Except.map]
  constructor
  · intro hQP
    have h := scipyNewton_exact_guess _ inp.volatility (Q - P) hv hobj0 hobjq
      (sub_ne_zero.mpr hQP)
    refine ⟨inp.volatility, ?_, by norm_num⟩
    simp [implied_volatility_american_call_pde, h]
  · intro hQP
    have hsp : newtonSecondPoint inp.volatility = inp.volatility * (1 + 1e-4) + 1e-4 := by
      unfold newtonSecondPoint
      rw [if_pos (mul_nonneg hv.le (by norm_num))]
    have hobjq0 : objective_function engine P inp.spot inp.strike inp.rate inp.div_yield
        inp.maturity inp.dividends inp.dividend_times
        (newtonSecondPoint inp.volatility) = Except.ok 0 := by
      rw [hsp, hobjq, hQP, sub_self]
    have h := scipyNewton_flat _ inp.volatility 0 hobj0 hobjq0
    simp [implied_volatility_american_call_pde, h]

/-- C6, witness: an engine echoing its volatility prices 1/5 at volatility
1/5 and responds to the perturbed volatility; the solver fed that price and
guess 1/5 recovers exactly 1/5. -/
theorem c6_witness :
    ∃ v, implied_volatility_american_call_pde volEngine (1/5) 100 100 (5/100) (2/100) 1 [] []
        (1/5) = Except.ok (some v)
      ∧ |v - (1/5 : ℚ)| ≤ 1e-4 :=
  (c6_round_trip volEngine ⟨100, 100, 5/100, 2/100, 1, 1/5, [], []⟩ (1/5)
    ((1/5) * (1 + 1e-4) + 1e-4) (by norm_num) rfl rfl).1 (by norm_num)

/- Lemmas about the spec-modelled grid pricer. -/

namespace SpecPDE

/-- The grid spacing is positive on a non-degenerate grid. -/
theorem gridHpos {Ns : ℕ} {Smax : ℚ} (hNs : 2 ≤ Ns) (hS : 0 < Smax) :
    0 < gridH Ns Smax := by
  unfold gridH
  refine div_pos hS ?_
  have h : 0 < Ns - 1 := by omega
  exact_mod_cast h

/-- The interpolation index never overshoots the query point. -/
theorem interpJ_mul_le {Ns : ℕ} {Smax : ℚ} (hNs : 2 ≤ Ns) (hS : 0 < Smax)
    (x : ℚ) (hx : 0 < x) :
    (interpJ Ns Smax x : ℚ) * gridH Ns Smax ≤ x := by
  have hh := gridHpos hNs hS
  have hfl : (0:ℤ) ≤ ⌊x / gridH Ns Smax⌋ :=
    Int.floor_nonneg.mpr (div_pos hx hh).le
  have hcast : ((⌊x / gridH Ns Smax⌋.toNat : ℕ) : ℚ) = ((⌊x / gridH Ns Smax⌋ : ℤ) : ℚ) := by
    exact_mod_cast Int.toNat_of_nonneg hfl
  unfold interpJ
  rw [hcast]
  calc ((⌊x / gridH Ns Smax⌋ : ℤ) : ℚ) * gridH Ns Smax
      ≤ (x / gridH Ns Smax) * gridH Ns Smax :=
        mul_le_mul_of_nonneg_right (Int.floor_le _) hh.le
    _ = x := div_mul_cancel₀ _ hh.ne'

/-- The query point lies below the next grid level. -/
theorem lt_interpJ_succ_mul {Ns : ℕ} {Smax : ℚ} (hNs : 2 ≤ Ns) (hS : 0 < Smax)
    (x : ℚ) (hx : 0 < x) :
    x < ((interpJ Ns Smax x : ℚ) + 1) * gridH Ns Smax := by
  have hh := gridHpos hNs hS
  have hfl : (0:ℤ) ≤ ⌊x / gridH Ns Smax⌋ :=
    Int.floor_nonneg.mpr (div_pos hx hh).le
  have hcast : ((⌊x / gridH Ns Smax⌋.toNat : ℕ) : ℚ) = ((⌊x / gridH Ns Smax⌋ : ℤ) : ℚ) := by
    exact_mod_cast Int.toNat_of_nonneg hfl
  unfold interpJ
  rw [hcast]
  calc x = (x / gridH Ns Smax) * gridH Ns Smax := (div_mul_cancel₀ _ hh.ne').symm
    _ < (((⌊x / gridH Ns Smax⌋ : ℤ) : ℚ) + 1) * gridH Ns Smax :=
        mul_lt_mul_of_pos_right (Int.lt_floor_add_one _) hh

/-- The interpolation weight is nonnegative. -/
theorem interpW_nonneg {Ns : ℕ} {Smax : ℚ} (hNs : 2 ≤ Ns) (hS : 0 < Smax)
    (x : ℚ) (hx : 0 < x) : 0 ≤ interpW Ns Smax x :=
  div_nonneg (sub_nonneg.mpr (interpJ_mul_le hNs hS x hx)) (gridHpos hNs hS).le

/-- The interpolation weight is at most one. -/
theorem interpW_le_one {Ns : ℕ} {Smax : ℚ} (hNs : 2 ≤ Ns) (hS : 0 < Smax)
    (x : ℚ) (hx : 0 < x) : interpW Ns Smax x ≤ 1 := by
  unfold interpW
  rw [div_le_one (gridHpos hNs hS)]
  have h := lt_interpJ_succ_mul hNs hS x hx
  rw [add_mul, one_mul] at h
  linarith

/-- The interpolation pair reconstructs the query point exactly. -/
theorem interpW_mul {Ns : ℕ} {Smax : ℚ} (hNs : 2 ≤ Ns) (hS : 0 < Smax)
    (x : ℚ) (hx : 0 < x) :
    (interpJ Ns Smax x : ℚ) * gridH Ns Smax + interpW Ns Smax x * gridH Ns Smax = x := by
  unfold interpW
  rw [div_mul_cancel₀ _ (gridHpos hNs hS).ne']
  ring

/-- The last grid level is Smax. -/
theorem gridLevel_last {Ns : ℕ} {Smax : ℚ} (hNs : 2 ≤ Ns) :
    gridLevel Ns Smax (Ns - 1) = Smax := by
  unfold gridLevel gridH
  rw [mul_comm]
  exact div_mul_cancel₀ _ (Nat.cast_ne_zero.mpr (by omega))

/-- Clamped interpolation is monotone in the column values. -/
theorem clampedInterp_mono {Ns : ℕ} {Smax : ℚ} (hNs : 2 ≤ Ns) (hS : 0 < Smax)
    (c c' : ℕ → ℚ) (hcc : ∀ i, c i ≤ c' i) (x : ℚ) :
    clampedInterp Ns Smax c x ≤ clampedInterp Ns Smax c' x := by
  unfold clampedInterp
  split_ifs with h1 h2
  · exact hcc 0
  · exact hcc (Ns - 1)
  · have hx : 0 < x := not_le.mp h1
    have hw0 := interpW_nonneg hNs hS x hx
    have hw1 := interpW_le_one hNs hS x hx
    have t1 := mul_le_mul_of_nonneg_left (hcc (interpJ Ns Smax x))
      (show (0:ℚ) ≤ 1 - interpW Ns Smax x by linarith)
    have t2 := mul_le_mul_of_nonneg_left (hcc (interpJ Ns Smax x + 1)) hw0
    linarith

/-- Clamped interpolation of a nonnegative column is nonnegative. -/
theorem clampedInterp_nonneg {Ns : ℕ} {Smax : ℚ} (hNs : 2 ≤ Ns) (hS : 0 < Smax)
    (c : ℕ → ℚ) (hc : ∀ i, 0 ≤ c i) (x : ℚ) :
    0 ≤ clampedInterp Ns Smax c x := by
  unfold clampedInterp
  split_ifs with h1 h2
  · exact hc 0
  · exact hc (Ns - 1)
  · have hx : 0 < x := not_le.mp h1
    have hw0 := interpW_nonneg hNs hS x hx
    have hw1 := interpW_le_one hNs hS x hx
    have t1 := mul_nonneg (show (0:ℚ) ≤ 1 - interpW Ns Smax x by linarith)
      (hc (interpJ Ns Smax x))
    have t2 := mul_nonneg hw0 (hc (interpJ Ns Smax x + 1))
    linarith

/-- A column dominating both the intrinsic line S - K and zero interpolates,
inside [0, Smax], to at least max(x - K, 0). -/
theorem clampedInterp_intrinsic {Ns : ℕ} {Smax K : ℚ} (hNs : 2 ≤ Ns) (hS : 0 < Smax)
    (c : ℕ → ℚ) (hfloor : ∀ i, gridLevel Ns Smax i - K ≤ c i) (hnn : ∀ i, 0 ≤ c i)
    (x : ℚ) (hx0 : 0 ≤ x) (hx1 : x ≤ Smax) :
    max (x - K) 0 ≤ clampedInterp Ns Smax c x := by
  rw [max_le_iff]
  refine ⟨?_, clampedInterp_nonneg hNs hS c hnn x⟩
  unfold clampedInterp
  split_ifs with h1 h2
  · have hx : x = 0 := le_antisymm h1 hx0
    have h := hfloor 0
    rw [hx]
    simpa [gridLevel] using h
  · have hx : x = Smax := le_antisymm hx1 h2
    have h := hfloor (Ns - 1)
    rw [gridLevel_last hNs] at h
    rw [hx]
    exact h
  · have hx : 0 < x := not_le.mp h1
    have hw0 := interpW_nonneg hNs hS x hx
    have hw1 := interpW_le_one hNs hS x hx
    have hsum := interpW_mul hNs hS x hx
    have g1 := hfloor (interpJ Ns Smax x)
    have g2 := hfloor (interpJ Ns Smax x + 1)
    have hlev2 : gridLevel Ns Smax (interpJ Ns Smax x + 1) =
        ((interpJ Ns Smax x : ℚ) + 1) * gridH Ns Smax := by
      unfold gridLevel
      push_cast
      ring
    rw [hlev2] at g2
    have hlev1 : gridLevel Ns Smax (interpJ Ns Smax x) =
        (interpJ Ns Smax x : ℚ) * gridH Ns Smax := rfl
    rw [hlev1] at g1
    have t1 := mul_le_mul_of_nonneg_left g1
      (show (0:ℚ) ≤ 1 - interpW Ns Smax x by linarith)
    have t2 := mul_le_mul_of_nonneg_left g2 hw0
    nlinarith [hsum, t1, t2]

/-- Unfolding equation: no dividends leave the column unchanged. -/
theorem applyDivList_nil (Ns : ℕ) (Smax : ℚ) (col : ℕ → ℚ) :
    applyDivList Ns Smax [] col = col := rfl

/-- Unfolding equation for one dividend. -/
theorem applyDivList_cons (Ns : ℕ) (Smax : ℚ) (D : ℚ) (ds : List ℚ) (col : ℕ → ℚ) :
    applyDivList Ns Smax (D :: ds) col =
      applyDivList Ns Smax ds
        (fun i => clampedInterp Ns Smax col (gridLevel Ns Smax i - D)) := rfl

/-- Dividend application is monotone in the column values. -/
theorem applyDivList_mono {Ns : ℕ} {Smax : ℚ} (hNs : 2 ≤ Ns) (hS : 0 < Smax)
    (ds : List ℚ) :
    ∀ (c c' : ℕ → ℚ), (∀ i, c i ≤ c' i) →
      ∀ i, applyDivList Ns Smax ds c i ≤ applyDivList Ns Smax ds c' i := by
  induction ds with
  | nil => intro c c' h i; exact h i
  | cons D ds ih =>
    intro c c' h i
    rw [applyDivList_cons, applyDivList_cons]
    exact ih _ _ (fun i2 => clampedInterp_mono hNs hS c c' h _) i

/-- Dividend application preserves nonnegativity. -/
theorem applyDivList_nonneg {Ns : ℕ} {Smax : ℚ} (hNs : 2 ≤ Ns) (hS : 0 < Smax)
    (ds : List ℚ) :
    ∀ (c : ℕ → ℚ), (∀ i, 0 ≤ c i) → ∀ i, 0 ≤ applyDivList Ns Smax ds c i := by
  induction ds with
  | nil => intro c h i; exact h i
  | cons D ds ih =>
    intro c h i
    rw [applyDivList_cons]
    exact ih _ (fun i2 => clampedInterp_nonneg hNs hS c h _) i

/-- The projection dominates the solved value. -/
theorem le_project (g : GridSpec) (col : ℕ → ℚ) (i : ℕ) :
    col i ≤ project g col i := le_max_left _ _

/-- One American step preserves nonnegativity. -/
theorem amStep_nonneg (solver : ℕ → (ℕ → ℚ) → ℕ → ℚ) (g : GridSpec)
    (hnnS : ∀ j c, (∀ i, 0 ≤ c i) → ∀ i, 0 ≤ solver j c i)
    (hNs : 2 ≤ g.Ns) (hS : 0 < g.Smax) (j : ℕ) (col : ℕ → ℚ)
    (h : ∀ i, 0 ≤ col i) : ∀ i, 0 ≤ amStep solver g j col i := by
  intro i
  unfold amStep
  refine applyDivList_nonneg hNs hS _ _ (fun i2 => ?_) i
  exact le_trans (hnnS j col h i2) (le_project g _ i2)

/-- One European step is dominated by one American step, given a monotone
one-step solver. -/
theorem euStep_le_amStep (solver : ℕ → (ℕ → ℚ) → ℕ → ℚ) (g : GridSpec)
    (hmono : ∀ j c c', (∀ i, c i ≤ c' i) → ∀ i, solver j c i ≤ solver j c' i)
    (hNs : 2 ≤ g.Ns) (hS : 0 < g.Smax) (j : ℕ) (colE colA : ℕ → ℚ)
    (h : ∀ i, colE i ≤ colA i) :
    ∀ i, euStep solver g j colE i ≤ amStep solver g j colA i := by
  intro i
  unfold euStep amStep
  refine applyDivList_mono hNs hS _ _ _ (fun i2 => ?_) i
  exact le_trans (hmono j colE colA h i2) (le_project g _ i2)

/-- The American evolution preserves nonnegativity. -/
theorem amEvolve_nonneg (solver : ℕ → (ℕ → ℚ) → ℕ → ℚ) (g : GridSpec)
    (hnnS : ∀ j c, (∀ i, 0 ≤ c i) → ∀ i, 0 ≤ solver j c i)
    (hNs : 2 ≤ g.Ns) (hS : 0 < g.Smax) :
    ∀ (m : ℕ) (col : ℕ → ℚ), (∀ i, 0 ≤ col i) → ∀ i, 0 ≤ amEvolve solver g m col i := by
  intro m
  induction m with
  | zero => intro col h i; exact h i
  | succ m ih =>
    intro col h i
    exact ih _ (amStep_nonneg solver g hnnS hNs hS m col h) i

/-- The European evolution stays below the American evolution pointwise. -/
theorem euEvolve_le_amEvolve (solver : ℕ → (ℕ → ℚ) → ℕ → ℚ) (g : GridSpec)
    (hmono : ∀ j c c', (∀ i, c i ≤ c' i) → ∀ i, solver j c i ≤ solver j c' i)
    (hNs : 2 ≤ g.Ns) (hS : 0 < g.Smax) :
    ∀ (m : ℕ) (colE colA : ℕ → ℚ), (∀ i, colE i ≤ colA i) →
      ∀ i, euEvolve solver g m colE i ≤ amEvolve solver g m colA i := by
  intro m
  induction m with
  | zero => intro colE colA h i; exact h i
  | succ m ih =>
    intro colE colA h i
    exact ih _ _ (euStep_le_amStep solver g hmono hNs hS m colE colA h) i

/-- Peeling off the last (level-0) step of a nonempty American evolution. -/
theorem amEvolve_peel (solver : ℕ → (ℕ → ℚ) → ℕ → ℚ) (g : GridSpec)
    (hnnS : ∀ j c, (∀ i, 0 ≤ c i) → ∀ i, 0 ≤ solver j c i)
    (hNs : 2 ≤ g.Ns) (hS : 0 < g.Smax) :
    ∀ (m : ℕ) (col : ℕ → ℚ), (∀ i, 0 ≤ col i) →
      ∃ c, amEvolve solver g (m + 1) col = amStep solver g 0 c ∧ (∀ i, 0 ≤ c i) := by
  intro m
  induction m with
  | zero => intro col h; exact ⟨col, rfl, h⟩
  | succ m ih =>
    intro col h
    obtain ⟨c, hc, hcn⟩ := ih (amStep solver g (m + 1) col)
      (amStep_nonneg solver g hnnS hNs hS (m + 1) col h)
    exact ⟨c, hc, hcn⟩

/-- The terminal payoff column is nonnegative. -/
theorem terminalCol_nonneg (g : GridSpec) (i : ℕ) : 0 ≤ terminalCol g i :=
  le_max_right _ _

end SpecPDE

/-- C8, counterexample: a valid grid with a dividend of 50 at time 1/2, which
the spec's late-application policy snaps to the valuation time level 0 of a
one-step grid; with the identity one-step solver (monotone and
nonnegativity-preserving) and spot 200 the modelled pricer returns 50, which
is below the immediate exercise value max(200 - 100, 0) = 100 — the claimed
intrinsic floor fails, because the dividend remap is applied after the final
early-exercise projection. -/
theorem c8_counterexample :
    SpecPDE.amPrice constSolver divGrid 200 = 50
    ∧ ¬ max ((200:ℚ) - divGrid.K) 0 ≤ SpecPDE.amPrice constSolver divGrid 200 := by
  have h : SpecPDE.amPrice constSolver divGrid 200 = 50 := by
    show SpecPDE.clampedInterp divGrid.Ns divGrid.Smax
      (SpecPDE.amStep constSolver divGrid 0 (SpecPDE.terminalCol divGrid)) 200 = 50
    norm_num [SpecPDE.amStep, SpecPDE.applyDivList, SpecPDE.divsAt, SpecPDE.timeStep,
      SpecPDE.clampedInterp, SpecPDE.interpW, SpecPDE.interpJ, SpecPDE.gridLevel,
      SpecPDE.gridH, SpecPDE.project, SpecPDE.terminalCol, divGrid, constSolver, List.filter]
  refine ⟨h, ?_⟩
  rw [h]
  norm_num [divGrid]

/-- C8, amended: for the grid pricer modelled from spec section 4.1 — with
the one-step PDE solve abstracted as any monotone, nonnegativity-preserving
map, which the spec's stable implicit scheme is — the returned value on a
valid grid (Ns ≥ 2, Nt ≥ 1, 0 < Smax, 0 ≤ spot ≤ Smax) is always nonnegative
and at least the European price computed on the same grid without the
early-exercise projection; it is at least the immediate exercise value
max(spot - K, 0) provided no dividend is snapped to the valuation time
level (with such a dividend the remap lands after the final projection and
the intrinsic floor can fail). -/
theorem c8_american_floor (solver : ℕ → (ℕ → ℚ) → ℕ → ℚ) (g : SpecPDE.GridSpec)
    (spot : ℚ)
    (hNs : 2 ≤ g.Ns) (hSmax : 0 < g.Smax) (hNt : 1 ≤ g.Nt)
    (hspot0 : 0 ≤ spot) (hspot1 : spot ≤ g.Smax)
    (hmono : ∀ j c c', (∀ i, c i ≤ c' i) → ∀ i, solver j c i ≤ solver j c' i)
    (hnnS : ∀ j c, (∀ i, 0 ≤ c i) → ∀ i, 0 ≤ solver j c i) :
    0 ≤ SpecPDE.amPrice solver g spot
    ∧ SpecPDE.euPrice solver g spot ≤ SpecPDE.amPrice solver g spot
    ∧ (SpecPDE.divsAt g 0 = [] →
        max (spot - g.K) 0 ≤ SpecPDE.amPrice solver g spot) := by
  have hnnfin : ∀ i, 0 ≤ SpecPDE.amEvolve solver g g.Nt (SpecPDE.terminalCol g) i :=
    SpecPDE.amEvolve_nonneg solver g hnnS hNs hSmax g.Nt _ (SpecPDE.terminalCol_nonneg g)
  refine ⟨SpecPDE.clampedInterp_nonneg hNs hSmax _ hnnfin spot, ?_, ?_⟩
  · exact SpecPDE.clampedInterp_mono hNs hSmax _ _
      (SpecPDE.euEvolve_le_amEvolve solver g hmono hNs hSmax g.Nt _ _ (fun i => le_refl _)) spot
  · intro hdiv0
    obtain ⟨m, hm⟩ : ∃ m, g.Nt = m + 1 := ⟨g.Nt - 1, by omega⟩
    obtain ⟨c, hc, hcn⟩ := SpecPDE.amEvolve_peel solver g hnnS hNs hSmax m
      (SpecPDE.terminalCol g) (SpecPDE.terminalCol_nonneg g)
    have hfin : SpecPDE.amEvolve solver g g.Nt (SpecPDE.terminalCol g) =
        SpecPDE.amStep solver g 0 c := by
      rw [hm]
      exact hc
    have hstep0 : SpecPDE.amStep solver g 0 c = SpecPDE.project g (solver 0 c) := by
      unfold SpecPDE.amStep
      rw [hdiv0]
      exact SpecPDE.applyDivList_nil _ _ _
    have hfloor : ∀ i, SpecPDE.gridLevel g.Ns g.Smax i - g.K ≤
        SpecPDE.amEvolve solver g g.Nt (SpecPDE.terminalCol g) i := by
      intro i
      rw [hfin, hstep0]
      exact le_max_right _ _
    exact SpecPDE.clampedInterp_intrinsic hNs hSmax _ hfloor hnnfin spot hspot0 hspot1

/-- C8, witness: the identity solver on the sample 3-point, 1-step grid with
strike 100, spot 100 and no dividends satisfies all three bounds, the
intrinsic floor included. -/
theorem c8_witness :
    0 ≤ SpecPDE.amPrice constSolver sampleGrid 100
    ∧ SpecPDE.euPrice constSolver sampleGrid 100 ≤ SpecPDE.amPrice constSolver sampleGrid 100
    ∧ max ((100:ℚ) - sampleGrid.K) 0 ≤ SpecPDE.amPrice constSolver sampleGrid 100 :=
  have h := c8_american_floor constSolver sampleGrid 100 (by decide) (by norm_num [sampleGrid])
    (by decide) (by norm_num) (by norm_num [sampleGrid])
    (fun _ _ _ h i => h i) (fun _ _ h i => h i)
  ⟨h.1, h.2.1, h.2.2 rfl⟩
